import Mathlib

/-!
Verification of the natural-language specification of `lib/monomers.js`
(the hydrolysis metadata engine) against a shallow embedding of that file.

The embedding translates the code, not the spec:
  * dom5 nodes are modelled with just the pieces monomers.js reads: an
    attribute list (dom5.getAttribute) and the text of the first child node
    (script.childNodes[0].value);
  * the external collaborators that are not part of this repository
    (import-parse, js-parse, the FileLoader, url.resolve) are parameters of
    an `Env` record, each with the interface monomers.js uses;
  * promises are evaluated synchronously in a fixed schedule; the value a
    promise settles with is returned through `Except`, and a thrown error or
    rejection is an `Except.error`.  Where settlement itself is in doubt
    (cyclic depsLoaded chains) a separate least-fixed-point predicate
    `DepsResolve` models which promises of the network ever settle;
  * the mutable per-instance state of a `Monomers` object (the
    href-to-monomer table, the element and module registries, the heap of
    metadata objects that `_metadataTree` mutates in place) is threaded
    explicitly through the functions as a record;
  * two ghost logs (`fetches`, `parses`) record each `loader.request` call
    and each `importParse` call; they exist only to state counting claims
    and influence nothing.
-/

namespace Monomers

/-- Association-list lookup: the value of the first pair whose key matches.
Models property lookup `obj[key]` on the JS objects monomers.js uses as
maps (`this.html`, `this.elements`, `this.modules`, attribute lists). -/
def getA {κ β : Type} [DecidableEq κ] : List (κ × β) → κ → Option β
  | [], _ => none
  | p :: ps, k => if p.1 = k then some p.2 else getA ps k

/-- Association-list update: replaces the first pair with the given key, or
appends the pair when the key is absent.  Models `obj[key] = v`. -/
def setA {κ β : Type} [DecidableEq κ] : List (κ × β) → κ → β → List (κ × β)
  | [], k, v => [(k, v)]
  | p :: ps, k, v => if p.1 = k then (k, v) :: ps else p :: setA ps k v

/-- A dom5 node as monomers.js sees it: the attribute list, and the `value`
of `childNodes[0]` when that child exists (`none` when `childNodes` is
empty, as for `<script></script>`). -/
structure DomNode where
  attrs : List (String × String)
  inlineText : Option String := none
deriving DecidableEq, Repr

/-- dom5.getAttribute: the value of the named attribute, `none` for the
null dom5 returns when the attribute is absent. -/
def getAttribute (n : DomNode) (name : String) : Option String :=
  getA n.attrs name

/-- An element monomer as produced by js-parse: its identifier `is`, and
the `domModule` reference that `attachDomModule` writes onto it (unset
when js-parse created it). -/
structure ElementRec where
  is : String
  domModule : Option DomNode := none
deriving DecidableEq, Repr

/-- A module monomer as produced by js-parse: its identifier `is`. -/
structure ModuleRec where
  is : String
deriving DecidableEq, Repr

/-- The `{elements, modules}` metadata value js-parse returns for one
script and `_processScripts` aggregates for one document. -/
structure Metadata where
  elements : List ElementRec
  modules : List ModuleRec
deriving DecidableEq, Repr

/-- monomers.js 20-25. -/
def reduceMetadata (m1 m2 : Metadata) : Metadata :=
  { elements := m1.elements ++ m2.elements,
    modules := m1.modules ++ m2.modules }

/-- monomers.js 27: the single module-level empty aggregate object. -/
def EMPTY_METADATA : Metadata := { elements := [], modules := [] }

/-- The result of import-parse on one document: the registries of script
nodes, of import link nodes (`parsed.import`) and of dom-module template
nodes (`parsed[ -dom-module- ]`), each in document order.  import-parse
always yields arrays for these registries, so the truthiness tests
`if (parsed.script)` and array truthiness in monomers.js always pass. -/
structure ParsedImport where
  script : List DomNode
  «import» : List DomNode
  domModule : List DomNode
deriving DecidableEq, Repr

/-- The failures monomers.js can produce or propagate.  `typeError` carries
a short description of the undefined dereference that raised it. -/
inductive JsError where
  | parseError (msg : String)
  | duplicateElement (is : String)
  | duplicateModule (is : String)
  | typeError (msg : String)
  | loaderError (msg : String)
  | outOfFuel
deriving DecidableEq, Repr

/-- The message of each failure; the duplicate-definition messages are the
strings built at monomers.js 169 and 178. -/
def errorMessage : JsError → String
  | .parseError m => m
  | .duplicateElement s => "Duplicate element definition: " ++ s
  | .duplicateModule s => "Duplicate module definition: " ++ s
  | .typeError m => m
  | .loaderError m => m
  | .outOfFuel => "out of fuel"

/-- The instance-global registries `this.elements` and `this.modules`. -/
structure ScriptState where
  elements : List (String × ElementRec)
  modules : List (String × ModuleRec)
deriving DecidableEq, Repr

/-- monomers.js 166-174: register each element of one parsed script into
the instance-global registry, failing on an identifier already present.
The forEach callback here is bound (`.bind(this)` at 173), so `this` is
the engine and the registry is reachable. -/
def registerElements : List ElementRec → ScriptState → Except JsError ScriptState
  | [], st => .ok st
  | e :: es, st =>
    if (getA st.elements e.is).isSome then
      .error (.duplicateElement e.is)
    else
      registerElements es { st with elements := (e.is, e) :: st.elements }

/-- monomers.js 175-182: the module registration loop.  Unlike the element
loop, the forEach callback at 176 has no `.bind(this)`; the file is in
strict mode (line 10), so inside the callback `this` is `undefined` and the
very first access `this.modules` at 177 throws a TypeError.  Registration
of a non-empty module list therefore always fails with a TypeError, and the
`Duplicate module definition` throw at 178 is unreachable. -/
def registerModules : List ModuleRec → ScriptState → Except JsError ScriptState
  | [], st => .ok st
  | _ :: _, _ => .error (.typeError "this is undefined in the modules forEach callback")

/-- The collaborators of the engine, at the interface monomers.js uses,
together with the `attachAST` constructor flag that is only ever handed to
js-parse.  `loader.request` is modelled by the text (or failure) each
address resolves to. -/
structure Env where
  importParse : String → Except JsError ParsedImport
  jsParse : String → Bool → Except JsError Metadata
  urlResolve : String → String → String
  loader : Option (String → Except JsError String)
  attachAST : Bool

/-- The inline branch of `_processScript` (monomers.js 164-183): parse the
script body, register its elements, then its modules, and return the parsed
`{elements, modules}` value itself as this script's metadata.  A script
with no child node fails at `script.childNodes[0].value`. -/
def processInlineScript (env : Env) (script : DomNode) (st : ScriptState) :
    Except JsError (Metadata × ScriptState) :=
  match script.inlineText with
  | none => .error (.typeError "script has no child node")
  | some txt =>
    match env.jsParse txt env.attachAST with
    | .error e => .error e
    | .ok pj =>
      match registerElements pj.elements st with
      | .error e => .error e
      | .ok st1 =>
        match registerModules pj.modules st1 with
        | .error e => .error e
        | .ok st2 => .ok (pj, st2)

/-- monomers.js 161-197, `_processScript`.  A script with no `src`
attribute (or an empty one: `if (!src)`) is processed inline.  Otherwise,
with a loader, the referenced content is fetched and the source recurses
into `_processScript` with a synthesized copy of the node whose `src`
attribute was removed and whose only child holds the content; that
recursive call always takes the inline branch, which is inlined here.
Without a loader the script contributes the empty aggregate. -/
def processScript (env : Env) (href : String) (script : DomNode) (st : ScriptState) :
    Except JsError (Metadata × ScriptState) :=
  match getAttribute script "src" with
  | none => processInlineScript env script st
  | some src =>
    if src = "" then processInlineScript env script st
    else
      match env.loader with
      | none => .ok (EMPTY_METADATA, st)
      | some request =>
        match request (env.urlResolve href src) with
        | .error e => .error e
        | .ok content => processInlineScript env { script with inlineText := some content } st

/-- The list of per-script metadata values of one document, in script
order (the `metadataList` that `Promise.all(scriptPromises)` delivers at
monomers.js 156). -/
def processScriptsAux (env : Env) (href : String) :
    List DomNode → ScriptState → Except JsError (List Metadata × ScriptState)
  | [], st => .ok ([], st)
  | s :: ss, st =>
    match processScript env href s st with
    | .error e => .error e
    | .ok (m, st1) =>
      match processScriptsAux env href ss st1 with
      | .error e => .error e
      | .ok (ms, st2) => .ok (m :: ms, st2)

/-- monomers.js 151-159, `_processScripts`: the document aggregate is
`metadataList.reduce(reduceMetadata, EMPTY_METADATA)`. -/
def processScripts (env : Env) (href : String) (scripts : List DomNode) (st : ScriptState) :
    Except JsError (Metadata × ScriptState) :=
  match processScriptsAux env href scripts st with
  | .error e => .error e
  | .ok (ms, st1) => .ok (ms.foldl reduceMetadata EMPTY_METADATA, st1)

/-- monomers.js 244-253, `attachDomModule`: walk the dom-module registry of
the parsed document in order; on the first node whose `id` attribute equals
the element's name, set it as the element's `domModule` and return; when
none matches, return with the element untouched. -/
def attachLoop (element : ElementRec) : List DomNode → ElementRec
  | [] => element
  | d :: ds =>
    if getAttribute d "id" = some element.is then { element with domModule := some d }
    else attachLoop element ds

/-- monomers.js 244-253. -/
def attachDomModule (parsedImport : ParsedImport) (element : ElementRec) : ElementRec :=
  attachLoop element parsedImport.domModule

/-! ### Metadata objects and identity

`_metadataTree` (monomers.js 227-237) writes `imports`, `href` and `html`
onto the object the `metadataLoaded` promise resolved with, and
`attachDomModule` writes onto its elements, all in place.  Which object
that is matters, because every script-less document resolves
`metadataLoaded` with the one module-level `EMPTY_METADATA` object: an
empty script registry takes the `Promise.resolve(EMPTY_METADATA)` path (or
equivalently `[].reduce(reduceMetadata, EMPTY_METADATA)`, which returns the
initial object itself), while a non-empty reduce builds a fresh object.
Metadata objects therefore live in an explicit heap of references;
`emptyRef` is the reference of `EMPTY_METADATA`. -/

abbrev Ref := Nat

/-- The one module-level `EMPTY_METADATA` object. -/
def emptyRef : Ref := 0

/-- An entry of the `imports` array `_metadataTree` assembles: either (a
reference to) the metadata object of a subtree, or the fresh `{}`
placeholder pushed at monomers.js 224 for an already-visited address. -/
inductive TreeVal where
  | node (r : Ref)
  | placeholder
deriving DecidableEq, Repr

/-- A metadata object as it sits on the heap: the aggregate fields from
script processing, plus the `imports`, `href` and `html` properties that
`_metadataTree` assigns in place (absent until then). -/
structure MetaObj where
  elements : List ElementRec
  modules : List ModuleRec
  imports : Option (List TreeVal) := none
  href : Option String := none
  html : Option ParsedImport := none
deriving DecidableEq, Repr

structure Heap where
  objs : List (Ref × MetaObj)
  next : Ref
deriving DecidableEq, Repr

def Heap.get (h : Heap) (r : Ref) : Option MetaObj := getA h.objs r

def Heap.set (h : Heap) (r : Ref) (o : MetaObj) : Heap := ⟨setA h.objs r o, h.next⟩

def Heap.alloc (h : Heap) (o : MetaObj) : Ref × Heap :=
  (h.next, ⟨(h.next, o) :: h.objs, h.next + 1⟩)

/-- The heap at engine construction: just the `EMPTY_METADATA` object. -/
def initHeap : Heap := ⟨[(emptyRef, { elements := [], modules := [] })], 1⟩

/-- One entry of `this.html`, the settled face of an HTMLMonomer: its
`href`, the value `htmlLoaded` resolves with, the object `metadataLoaded`
resolves with, and the list `depsLoaded` resolves with whenever it
resolves at all (see `DepsResolve` for whether it does). -/
structure Monomer where
  href : String
  parsed : ParsedImport
  metaRef : Ref
  depHrefs : List String
deriving DecidableEq, Repr

/-- The mutable state of one engine instance during resolution, plus the
two ghost logs.  `html` is `this.html`; `scriptSt` the element/module
registries; `heap` the metadata objects.  `fetches` records the address of
every `loader.request` call and `parses` the href of every `importParse`
call, in order; they are write-only instrumentation. -/
structure RState where
  html : List (String × Monomer)
  heap : Heap
  scriptSt : ScriptState
  fetches : List String
  parses : List String
deriving DecidableEq, Repr

/-- The engine state at construction (monomers.js 87-94). -/
def initRState : RState := ⟨[], initHeap, ⟨[], []⟩, [], []⟩

/-- monomers.js 127-137: the resolved targets of the import links of one
document, in document order, keeping only links whose `href` attribute is
present and non-empty (`if (linkurl)`; an empty string is falsy). -/
def linkHrefs (env : Env) (href : String) (links : List DomNode) : List String :=
  links.filterMap fun link =>
    match getAttribute link "href" with
    | none => none
    | some u => if u = "" then none else some (env.urlResolve href u)

/-- The dependency loop spawned at monomers.js 127-137: for each resolved
link target, the fetched content is parsed recursively.  `step` is the
recursive `_parseHTML` at one fuel less.  In the source these callbacks
run interleaved on the event loop as fetches complete; this model runs
them depth-first in link order, which leaves the memoized table, the
registries and the per-link fetch log the same. -/
def parseDeps (step : String → String → RState → Except JsError RState)
    (request : String → Except JsError String) :
    List String → RState → Except JsError RState
  | [], st => .ok st
  | r :: rs, st =>
    match request r with
    | .error e => .error e
    | .ok content =>
      match step content r st with
      | .error e => .error e
      | .ok st1 => parseDeps step request rs st1

/-- monomers.js 104-149, `_parseHTML`, driven to quiescence.  An href
already in `this.html` returns its monomer with no work (106-108).
Otherwise the text is parsed (a throw propagates, 113-119), the scripts
are processed into the metadata object (121-124; an empty script registry
yields the shared `EMPTY_METADATA`, a non-empty one a fresh object), and,
when a loader is configured, every qualifying link issues a
`loader.request` (one call per link occurrence, 132) and its content is
parsed recursively; without a loader `depsLoaded` resolves to `[]`.  The
monomer is stored in `this.html` before any recursive parse runs, since
the request callbacks only fire on later event-loop turns. -/
def parseHTML (env : Env) : Nat → String → String → RState → Except JsError RState
  | 0, _, _, _ => .error .outOfFuel
  | fuel + 1, text, href, st =>
    match getA st.html href with
    | some _ => .ok st
    | none =>
      let st1 : RState := { st with parses := st.parses ++ [href] }
      match env.importParse text with
      | .error e => .error e
      | .ok parsed =>
        match processScriptsAux env href parsed.script st1.scriptSt with
        | .error e => .error e
        | .ok (ms, scriptSt1) =>
          let agg := ms.foldl reduceMetadata EMPTY_METADATA
          let alloc : Ref × Heap :=
            match parsed.script with
            | [] => (emptyRef, st1.heap)
            | _ :: _ => st1.heap.alloc { elements := agg.elements, modules := agg.modules }
          match env.loader with
          | none =>
            .ok { st1 with
                  heap := alloc.2, scriptSt := scriptSt1,
                  html := (href, ⟨href, parsed, alloc.1, []⟩) :: st1.html }
          | some request =>
            let deps := linkHrefs env href parsed.«import»
            parseDeps (parseHTML env fuel) request deps
              { st1 with
                heap := alloc.2, scriptSt := scriptSt1,
                fetches := st1.fetches ++ deps,
                html := (href, ⟨href, parsed, alloc.1, deps⟩) :: st1.html }

/-! ### Settlement of the depsLoaded promise network

`depsLoaded` of a document (monomers.js 139-141) is
`Promise.all(depsLoaded).then(() => depHrefs)` where the array holds
`metadataLoaded` plus, per import link, the promise
`loader.request(url).then(content => this._parseHTML(content, url).depsLoaded)`
(132-134): each link entry adopts the `depsLoaded` of the memoized monomer
at the resolved address.  Once every fetch has completed and each
document's metadata has settled, the only await left in the network is
each `depsLoaded` waiting on the `depsLoaded` of the document's import
targets.  A promise settles exactly when it lies in the least fixed point
of that waiting relation, which the following inductive predicate is:
`depsLoaded` of `h` resolves iff `depsLoaded` of every import target of
`h` resolves. -/

inductive DepsResolve (D : String → List String) : String → Prop where
  | step (h : String) : (∀ d ∈ D h, DepsResolve D d) → DepsResolve D h

/-- The depsLoaded promise of `h` never settles: `h` is outside the least
fixed point `DepsResolve` of the promise network whose import targets are
`D`.  `_metadataTree` awaits `metadataLoaded` and then `depsLoaded` of the
root (monomers.js 209-210) before doing anything else, so when this holds
of the root the future `metadataTree()` returns never settles either. -/
def DepsLoadedHangs (D : String → List String) (h : String) : Prop :=
  ¬ DepsResolve D h

/-! ### The tree builder (`_metadataTree`) -/

/-- The visited set and the heap of metadata objects during one
`metadataTree()` call. -/
structure BState where
  heap : Heap
  visited : List String
deriving DecidableEq, Repr

/-- The synchronous forEach at monomers.js 212-226: walking `hrefs` in
order against the `loadedHrefs` set, it marks every not-yet-visited
address visited and plans its position for a recursive build (`some h`),
and plans the placeholder (`none`) for every address already visited —
including one first seen earlier in the same walk.  All marking happens in
this synchronous pass, before any of the chained subtree builds runs. -/
def markPlan : List String → List String → List (Option String) × List String
  | [], visited => ([], visited)
  | h :: hs, visited =>
    if h ∈ visited then
      (none :: (markPlan hs visited).1, (markPlan hs visited).2)
    else
      (some h :: (markPlan hs (h :: visited)).1, (markPlan hs (h :: visited)).2)

/-- Runs the planned children of one node.  Each `some h` position looks
up `this.html[href]` and builds that subtree to completion before the next
one starts — the source serializes them by chaining each build on the
previous `depMetadata` entry (monomers.js 215-221) — and each `none`
position contributes the `{}` placeholder (224).  The resulting list lines
up positionally with the plan, as `Promise.all(depMetadata)` does. -/
def buildPlan (step : Monomer → BState → Except JsError (Ref × BState))
    (html : String → Option Monomer) :
    List (Option String) → BState → Except JsError (List TreeVal × BState)
  | [], st => .ok ([], st)
  | none :: ps, st =>
    match buildPlan step html ps st with
    | .error e => .error e
    | .ok (ts, st1) => .ok (TreeVal.placeholder :: ts, st1)
  | some h :: ps, st =>
    match html h with
    | none => .error (.typeError "html monomer for a dependency href is undefined")
    | some m =>
      match step m st with
      | .error e => .error e
      | .ok (r, st1) =>
        match buildPlan step html ps st1 with
        | .error e => .error e
        | .ok (ts, st2) => .ok (TreeVal.node r :: ts, st2)

/-- monomers.js 207-242, `_metadataTree`, on a monomer whose
`metadataLoaded` and `depsLoaded` have settled: plan and build the
children in declared order, then mutate the resolved metadata object in
place — `metadata.imports`, `metadata.href`, `metadata.html`, and
`attachDomModule` over `metadata.elements` (227-237) — and resolve with
that same object.  Any failure in a subtree aborts the whole call with
that failure. -/
def buildTree (html : String → Option Monomer) : Nat → Monomer → BState → Except JsError (Ref × BState)
  | 0, _, _ => .error .outOfFuel
  | fuel + 1, m, st =>
    match buildPlan (buildTree html fuel) html (markPlan m.depHrefs st.visited).1
        { st with visited := (markPlan m.depHrefs st.visited).2 } with
    | .error e => .error e
    | .ok (ts, st1) =>
      match st1.heap.get m.metaRef with
      | none => .error (.typeError "resolved metadata object is missing")
      | some obj =>
        let obj1 : MetaObj :=
          { obj with
            elements := obj.elements.map (attachDomModule m.parsed),
            imports := some ts,
            href := some m.href,
            html := some m.parsed }
        .ok (m.metaRef, { st1 with heap := st1.heap.set m.metaRef obj1 })

/-- monomers.js 203-205, `metadataTree()`: build from `this.root` (the
monomer registered for the constructor href) with a fresh visited set. -/
def metadataTree (st : RState) (rootHref : String) (fuel : Nat) :
    Except JsError (Ref × BState) :=
  match getA st.html rootHref with
  | none => .error (.typeError "root monomer is undefined")
  | some root => buildTree (getA st.html) fuel root ⟨st.heap, []⟩

/-- Constructing the engine on `text`/`href` and then calling
`metadataTree()`: resolution to quiescence followed by the tree build. -/
def runEngine (env : Env) (fuel : Nat) (text href : String) :
    Except JsError (Ref × BState) :=
  match parseHTML env fuel text href initRState with
  | .error e => .error e
  | .ok st => metadataTree st href fuel

/-! ### Concrete documents and collaborator instances used in examples -/

/-- An import link node targeting `u`. -/
def linkTo (u : String) : DomNode := ⟨[("href", u)], none⟩

/-- An inline script node whose body is `t`. -/
def scriptNode (t : String) : DomNode := ⟨[], some t⟩

/-- A script-less document importing the given addresses in order. -/
def docImports (us : List String) : ParsedImport := ⟨[], us.map linkTo, []⟩

def elemA : ElementRec := ⟨"x-a", none⟩

def elemB : ElementRec := ⟨"x-b", none⟩

def moduleM1 : ModuleRec := ⟨"m1"⟩

/-- Extraction-only collaborators: two inline script bodies, each defining
one element; no loader. -/
def envS : Env :=
  { importParse := fun t => .error (.parseError t),
    jsParse := fun t _ =>
      if t = "s1" then .ok ⟨[elemA], []⟩
      else if t = "s2" then .ok ⟨[elemB], []⟩
      else .error (.parseError t),
    urlResolve := fun _ u => u,
    loader := none,
    attachAST := false }

/-- Collaborators for the module-registration bug: script body `sm`
declares the same module identifier twice, script body `se` the same
element identifier twice. -/
def envM : Env :=
  { importParse := fun t => .error (.parseError t),
    jsParse := fun t _ =>
      if t = "sm" then .ok ⟨[], [moduleM1, moduleM1]⟩
      else if t = "se" then .ok ⟨[elemA, elemA], []⟩
      else .error (.parseError t),
    urlResolve := fun _ u => u,
    loader := none,
    attachAST := false }

/-! ### Claim theorems -/

/-- C8: for every element and every parsed document, structural binding
scans the dom-module registry in document order, binds to the element the
first node whose `id` attribute equals the element's name and stops there
(`List.find?` is exactly the first member satisfying the predicate), and
with no matching node returns the element unchanged — its template
reference stays unset and no failure is raised (the function is total). -/
theorem c8_structural_binding (p : ParsedImport) (e : ElementRec) :
    attachDomModule p e =
      match p.domModule.find? (fun d => decide (getAttribute d "id" = some e.is)) with
      | some d => { e with domModule := some d }
      | none => e := by
  unfold attachDomModule
  induction p.domModule with
  | nil => rfl
  | cons d ds ih =>
    by_cases h : getAttribute d "id" = some e.is
    · simp [attachLoop, List.find?, h]
    · simp only [attachLoop, if_neg h, ih, List.find?]
      simp [h]

/-- Every list fold of `reduceMetadata` is the concatenation of the
per-item fields onto the accumulator. -/
theorem foldl_reduceMetadata (ms : List Metadata) (acc : Metadata) :
    ms.foldl reduceMetadata acc =
      ⟨acc.elements ++ (ms.map Metadata.elements).flatten,
       acc.modules ++ (ms.map Metadata.modules).flatten⟩ := by
  induction ms generalizing acc with
  | nil => simp
  | cons m ms ih => simp [ih, reduceMetadata]

/-- C7: when per-script extraction succeeds with the per-script results
`ms` (in script order), the document aggregate `_processScripts` returns
is exactly the ordered concatenation of the per-script element lists and
of the per-script module lists — `reduce(reduceMetadata, EMPTY_METADATA)`
performs no deduplication. -/
theorem c7_aggregate_is_ordered_concat (env : Env) (href : String)
    (scripts : List DomNode) (st : ScriptState) (ms : List Metadata) (st' : ScriptState)
    (h : processScriptsAux env href scripts st = .ok (ms, st')) :
    processScripts env href scripts st =
      .ok (⟨(ms.map Metadata.elements).flatten, (ms.map Metadata.modules).flatten⟩, st') := by
  unfold processScripts
  rw [h]
  show Except.ok (ms.foldl reduceMetadata EMPTY_METADATA, st') = _
  rw [foldl_reduceMetadata]
  simp [EMPTY_METADATA]

/-- C7 witness: a document with two scripts, each contributing one
element; the aggregate is their concatenation in script order. -/
theorem c7_witness :
    processScripts envS "doc.html" [scriptNode "s1", scriptNode "s2"] ⟨[], []⟩ =
      .ok (⟨[elemA, elemB], []⟩, ⟨[("x-b", elemB), ("x-a", elemA)], []⟩) :=
  c7_aggregate_is_ordered_concat envS "doc.html" [scriptNode "s1", scriptNode "s2"]
    ⟨[], []⟩ [⟨[elemA], []⟩, ⟨[elemB], []⟩] ⟨[("x-b", elemB), ("x-a", elemA)], []⟩ rfl

/-- C1: evaluating `_processScript` at the failing input.  A script whose
parsed body declares the same module identifier twice fails not with the
claimed `Duplicate module definition: m1` failure but with a TypeError,
because the modules forEach callback (monomers.js 176-181) is not bound
and strict mode leaves `this` undefined there — any module registration,
duplicate or not, throws before the duplicate check can run.  For
elements, whose callback is bound, a duplicated identifier does fail with
the duplicate-definition error naming it, as the claim states. -/
theorem c1_module_registration_throws_typeerror :
    processScript envM "doc.html" (scriptNode "sm") ⟨[], []⟩ =
        .error (.typeError "this is undefined in the modules forEach callback")
    ∧ processScript envM "doc.html" (scriptNode "se") ⟨[], []⟩ =
        .error (.duplicateElement "x-a")
    ∧ errorMessage (.duplicateElement "x-a") = "Duplicate element definition: x-a" :=
  ⟨rfl, rfl, rfl⟩

/-- Collaborators for a two-document import cycle: text `TA`, served at
address `A`, imports `B`; text `TB`, served at `B`, imports `A`. -/
def envCyc : Env :=
  { importParse := fun t =>
      if t = "TA" then .ok (docImports ["B"])
      else if t = "TB" then .ok (docImports ["A"])
      else .error (.parseError t),
    jsParse := fun t _ => .error (.parseError t),
    urlResolve := fun _ u => u,
    loader := some (fun h =>
      if h = "A" then .ok "TA"
      else if h = "B" then .ok "TB"
      else .error (.loaderError h)),
    attachAST := false }

/-- The import-target map of the cyclic pair. -/
def DCyc : String → List String := fun h =>
  if h = "A" then ["B"] else if h = "B" then ["A"] else []

/-- The `depHrefs` recorded for `h` by a resolution run. -/
def depHrefsAt (r : Except JsError RState) (h : String) : Option (List String) :=
  match r with
  | .error _ => none
  | .ok st => (getA st.html h).map Monomer.depHrefs

/-- No document of the cyclic pair is in the least fixed point of the
depsLoaded waiting relation. -/
theorem depsResolveCyc_aux : ∀ s, DepsResolve DCyc s → s ≠ "A" ∧ s ≠ "B" := by
  intro s hs
  induction hs with
  | step h hd ih =>
    constructor
    · rintro rfl
      exact (ih "B" (by simp [DCyc])).2 rfl
    · rintro rfl
      exact (ih "A" (by simp [DCyc])).1 rfl

/-- C2: resolution of the two-document cycle itself terminates (parsing is
memoized) and records that `A` waits on `B` and `B` waits on `A` — exactly
the map `DCyc` — but then neither document's depsLoaded promise ever
settles: each import link entry adopts the depsLoaded of the memoized
monomer at the other address (monomers.js 132-134), so the two
`Promise.all`s wait on each other forever.  `_metadataTree` awaits the
root's depsLoaded first (209-210), so the future returned by
`metadataTree()` never resolves, contrary to the claim. -/
theorem c2_cycle_metadata_tree_never_settles :
    depHrefsAt (parseHTML envCyc 9 "TA" "A" initRState) "A" = some (DCyc "A")
    ∧ depHrefsAt (parseHTML envCyc 9 "TA" "A" initRState) "B" = some (DCyc "B")
    ∧ DepsLoadedHangs DCyc "A"
    ∧ DepsLoadedHangs DCyc "B" := by
  refine ⟨rfl, rfl, ?_, ?_⟩
  · exact fun hr => (depsResolveCyc_aux "A" hr).1 rfl
  · exact fun hr => (depsResolveCyc_aux "B" hr).2 rfl

/-- Collaborators for a duplicate import: text `TR`, served at `R`,
imports `B` twice; text `TB` imports nothing. -/
def envDup : Env :=
  { importParse := fun t =>
      if t = "TR" then .ok (docImports ["B", "B"])
      else if t = "TB" then .ok (docImports [])
      else .error (.parseError t),
    jsParse := fun t _ => .error (.parseError t),
    urlResolve := fun _ u => u,
    loader := some (fun h => if h = "B" then .ok "TB" else .error (.loaderError h)),
    attachAST := false }

/-- The fetch log of a resolution run. -/
def fetchesAt (r : Except JsError RState) : Option (List String) :=
  match r with
  | .error _ => none
  | .ok st => some st.fetches

/-- Occurrences of an address in a log. -/
def countStr (h : String) : List String → Nat
  | [] => 0
  | x :: xs => (if x = h then 1 else 0) + countStr h xs

/-- C3 counterexample: a document whose two import links target the same
resolved address.  `loader.request` is called once per link occurrence
(monomers.js 132), with no per-address check, so the address `B` is
fetched twice in this run — not at most once as the claim states. -/
theorem c3_counterexample :
    fetchesAt (parseHTML envDup 9 "TR" "R" initRState) = some ["B", "B"]
    ∧ countStr "B" ["B", "B"] = 2 :=
  ⟨rfl, rfl⟩

/-- The resolution invariant: the parse log holds no duplicate href, every
parsed href already owns a monomer in `this.html`, and `this.html` holds
at most one entry per href. -/
def Inv (st : RState) : Prop :=
  st.parses.Nodup
    ∧ (∀ h ∈ st.parses, (getA st.html h).isSome)
    ∧ (st.html.map Prod.fst).Nodup

/-- Table entries only accumulate during resolution. -/
def HtmlLe (st st' : RState) : Prop :=
  ∀ h m, getA st.html h = some m → getA st'.html h = some m

theorem getA_eq_none_iff {κ β : Type} [DecidableEq κ] (l : List (κ × β)) (k : κ) :
    getA l k = none ↔ k ∉ l.map Prod.fst := by
  induction l with
  | nil => simp [getA]
  | cons p ps ih =>
    by_cases h : p.1 = k
    · simp [getA, h]
    · simp only [getA, if_neg h, ih, List.map_cons, List.mem_cons, not_or]
      exact ⟨fun hk => ⟨fun heq => h heq.symm, hk⟩, fun hk => hk.2⟩

/-- Registering the freshly parsed monomer for an unregistered href
preserves the invariant, whatever the heap, registries and fetch log
became. -/
theorem inv_register (st : RState) (href : String) (hmemo : getA st.html href = none)
    (hinv : Inv st) (mo : Monomer) (hp : Heap) (ss : ScriptState) (fs : List String) :
    Inv ⟨(href, mo) :: st.html, hp, ss, fs, st.parses ++ [href]⟩
      ∧ HtmlLe st ⟨(href, mo) :: st.html, hp, ss, fs, st.parses ++ [href]⟩ := by
  obtain ⟨hnd, hmem, hkeys⟩ := hinv
  have hne : ∀ h ∈ st.parses, h ≠ href := by
    intro h hh heq
    subst heq
    have := hmem h hh
    rw [hmemo] at this
    exact absurd this (by simp)
  constructor
  · refine ⟨?_, ?_, ?_⟩
    · rw [List.nodup_append]
      exact ⟨hnd, List.nodup_singleton _, by
        intro a ha hb
        rw [List.mem_singleton] at hb
        exact hne a ha hb⟩
    · intro h hh
      rw [List.mem_append, List.mem_singleton] at hh
      show (getA ((href, mo) :: st.html) h).isSome
      rw [show getA ((href, mo) :: st.html) h
            = if href = h then some mo else getA st.html h from rfl]
      rcases hh with hh | rfl
      · by_cases hcase : href = h
        · simp [hcase]
        · simpa [hcase] using hmem h hh
      · simp
    · rw [List.map_cons, List.nodup_cons]
      exact ⟨(getA_eq_none_iff st.html href).mp hmemo, hkeys⟩
  · intro h m hm
    show (if href = h then some mo else getA st.html h) = some m
    have hne2 : href ≠ h := by
      rintro rfl
      rw [hmemo] at hm
      exact absurd hm (by simp)
    simpa [hne2] using hm

/-- Invariant preservation along the dependency loop, given preservation
of one recursive parse. -/
theorem parseDeps_inv (env : Env) (fuel : Nat)
    (IH : ∀ text href st st', Inv st → parseHTML env fuel text href st = .ok st' →
      Inv st' ∧ HtmlLe st st') :
    ∀ (request : String → Except JsError String) (rs : List String) (st st' : RState),
      Inv st → parseDeps (parseHTML env fuel) request rs st = .ok st' →
      Inv st' ∧ HtmlLe st st' := by
  intro request rs
  induction rs with
  | nil =>
    intro st st' hinv h
    simp only [parseDeps] at h
    cases h
    exact ⟨hinv, fun h m hm => hm⟩
  | cons r rs ih =>
    intro st st' hinv h
    simp only [parseDeps] at h
    split at h
    · cases h
    · rename_i content hreq
      split at h
      · cases h
      · rename_i st1 hstep
        obtain ⟨h1, le1⟩ := IH content r st st1 hinv hstep
        obtain ⟨h2, le2⟩ := ih st1 st' h1 h
        exact ⟨h2, fun hh m hm => le2 hh m (le1 hh m hm)⟩

/-- Invariant preservation of a whole resolution run, by induction on the
fuel. -/
theorem parseHTML_inv (env : Env) :
    ∀ (fuel : Nat) (text href : String) (st st' : RState),
      Inv st → parseHTML env fuel text href st = .ok st' → Inv st' ∧ HtmlLe st st' := by
  intro fuel
  induction fuel with
  | zero =>
    intro text href st st' _ h
    simp only [parseHTML] at h
    cases h
  | succ fuel ih =>
    intro text href st st' hinv h
    simp only [parseHTML] at h
    split at h
    · cases h
      exact ⟨hinv, fun h m hm => hm⟩
    · rename_i hmemo
      split at h
      · cases h
      · rename_i parsed hip
        split at h
        · cases h
        · rename_i ms scriptSt1 hps
          split at h
          · cases h
            exact inv_register st href hmemo hinv _ _ _ _
          · rename_i request hload
            obtain ⟨h1, le1⟩ := inv_register st href hmemo hinv
              (⟨href, parsed, _, linkHrefs env href parsed.«import»⟩ : Monomer) _ scriptSt1
              (st.fetches ++ linkHrefs env href parsed.«import»)
            obtain ⟨h2, le2⟩ := parseDeps_inv env fuel ih request
              (linkHrefs env href parsed.«import») _ st' h1 h
            exact ⟨h2, fun hh m hm => le2 hh m (le1 hh m hm)⟩

/-- C3 amended: each distinct address is parsed at most once per engine
instance — after any successful resolution step starting from an
invariant-satisfying state, the parse log still holds no duplicate href.
(The loader, by contrast, is invoked once per import-link occurrence, as
the counterexample shows.) -/
theorem c3_each_address_parsed_at_most_once (env : Env) (fuel : Nat)
    (text href : String) (st st' : RState) (hinv : Inv st)
    (h : parseHTML env fuel text href st = .ok st') : st'.parses.Nodup :=
  ((parseHTML_inv env fuel text href st st' hinv h).1).1

/-- Collaborators for a single import-free, script-free document. -/
def env1 : Env :=
  { importParse := fun t => if t = "T" then .ok ⟨[], [], []⟩ else .error (.parseError t),
    jsParse := fun t _ => .error (.parseError t),
    urlResolve := fun _ u => u,
    loader := none,
    attachAST := false }

/-- The monomer `env1` resolution registers for `H`. -/
def monomerH : Monomer := ⟨"H", ⟨[], [], []⟩, emptyRef, []⟩

/-- The engine state after resolving `T` at `H` under `env1`. -/
def stH : RState := ⟨[("H", monomerH)], initHeap, ⟨[], []⟩, [], ["H"]⟩

/-- The empty engine state satisfies the resolution invariant. -/
theorem inv_init : Inv initRState :=
  ⟨List.nodup_nil, fun h hh => absurd hh (List.not_mem_nil h), List.nodup_nil⟩

/-- C3 witness: resolving one concrete document from the initial state
yields the parse log `[ -H- ]`, with no duplicates. -/
theorem c3_witness : stH.parses.Nodup :=
  c3_each_address_parsed_at_most_once env1 1 "T" "H" initRState stH inv_init rfl

/-- C4: resolving an href that is already in `this.html` returns with the
entire engine state unchanged — the existing monomer stays, the supplied
text is not parsed (the parse log does not move), nothing is fetched and
no registry changes — and any successful resolution step from an
invariant-satisfying state keeps `this.html` at no more than one monomer
per href. -/
theorem c4_resolve_idempotent_and_unique (env : Env) (fuel : Nat) (text href : String)
    (st : RState) (m : Monomer) (hmem : getA st.html href = some m)
    (env2 : Env) (fuel2 : Nat) (text2 href2 : String) (st2 st2' : RState)
    (hinv : Inv st2) (hrun : parseHTML env2 fuel2 text2 href2 st2 = .ok st2') :
    parseHTML env (fuel + 1) text href st = .ok st
      ∧ (st2'.html.map Prod.fst).Nodup := by
  constructor
  · simp only [parseHTML]
    rw [hmem]
  · exact ((parseHTML_inv env2 fuel2 text2 href2 st2 st2' hinv hrun).1).2.2

/-- C4 witness: with `H` already registered, a second resolve for `H`
(with different text) changes nothing, and the concrete run that produced
the table has one entry per href. -/
theorem c4_witness :
    parseHTML env1 1 "ignored" "H" stH = .ok stH
      ∧ (stH.html.map Prod.fst).Nodup :=
  c4_resolve_idempotent_and_unique env1 0 "ignored" "H" stH monomerH rfl
    env1 1 "T" "H" initRState stH inv_init rfl

theorem getA_setA_self {κ β : Type} [DecidableEq κ] (l : List (κ × β)) (k : κ) (v : β) :
    getA (setA l k v) k = some v := by
  induction l with
  | nil => simp [getA, setA]
  | cons p ps ih =>
    by_cases h : p.1 = k
    · simp [setA, h, getA]
    · simp [setA, h, getA, ih]

theorem Heap.get_set_self (hp : Heap) (r : Ref) (o : MetaObj) :
    (hp.set r o).get r = some o :=
  getA_setA_self hp.objs r o

/-- A successful `_metadataTree` call resolves with the very metadata
object of its monomer. -/
theorem buildTree_ref (html : String → Option Monomer) (fuel : Nat) (m : Monomer)
    (st : BState) (r : Ref) (st' : BState)
    (h : buildTree html fuel m st = .ok (r, st')) : r = m.metaRef := by
  cases fuel with
  | zero => simp [buildTree] at h
  | succ fuel =>
    simp only [buildTree] at h
    split at h
    · cases h
    · split at h
      · cases h
      · simp only [Except.ok.injEq, Prod.mk.injEq] at h
        exact h.1.symm

/-- Each position of the plan `markPlan` emits is either the placeholder
marker or the address standing at that position of the input. -/
theorem markPlan_forall2 : ∀ (hs visited : List String),
    List.Forall₂ (fun h p => p = none ∨ p = some h) hs (markPlan hs visited).1 := by
  intro hs
  induction hs with
  | nil => intro visited; exact List.Forall₂.nil
  | cons h hs ih =>
    intro visited
    by_cases hv : h ∈ visited
    · simp only [markPlan, if_pos hv]
      exact List.Forall₂.cons (Or.inl rfl) (ih visited)
    · simp only [markPlan, if_neg hv]
      exact List.Forall₂.cons (Or.inr rfl) (ih (h :: visited))

/-- Each entry `buildPlan` delivers lines up with its plan position: the
placeholder for a `none` position, and the metadata object of the monomer
registered at the planned address for a `some` position. -/
theorem buildPlan_forall2 (step : Monomer → BState → Except JsError (Ref × BState))
    (html : String → Option Monomer)
    (hstep : ∀ m st r st', step m st = .ok (r, st') → r = m.metaRef) :
    ∀ (plan : List (Option String)) (st : BState) (ts : List TreeVal) (st' : BState),
      buildPlan step html plan st = .ok (ts, st') →
      List.Forall₂ (fun p t => (p = none ∧ t = TreeVal.placeholder)
        ∨ ∃ h m, p = some h ∧ html h = some m ∧ t = TreeVal.node m.metaRef) plan ts := by
  intro plan
  induction plan with
  | nil =>
    intro st ts st' h
    simp only [buildPlan, Except.ok.injEq, Prod.mk.injEq] at h
    rw [← h.1]
    exact List.Forall₂.nil
  | cons p ps ih =>
    intro st ts st' h
    cases p with
    | none =>
      simp only [buildPlan] at h
      split at h
      · cases h
      · rename_i ts1 st1 hbp
        simp only [Except.ok.injEq, Prod.mk.injEq] at h
        rw [← h.1]
        exact List.Forall₂.cons (Or.inl ⟨rfl, rfl⟩) (ih st ts1 st1 hbp)
    | some hh =>
      simp only [buildPlan] at h
      split at h
      · cases h
      · rename_i m hm
        split at h
        · cases h
        · rename_i r st1 hst
          split at h
          · cases h
          · rename_i ts2 st2 hbp
            simp only [Except.ok.injEq, Prod.mk.injEq] at h
            rw [← h.1]
            exact List.Forall₂.cons
              (Or.inr ⟨hh, m, rfl, hm, by rw [hstep m st r st1 hst]⟩)
              (ih st1 ts2 st2 hbp)

/-- Composition of two positional correspondences. -/
theorem forall2_comp {α β γ : Type} {R : α → β → Prop} {S : β → γ → Prop} {T : α → γ → Prop}
    (hT : ∀ a b c, R a b → S b c → T a c) :
    ∀ {l1 : List α} {l2 : List β} {l3 : List γ},
      List.Forall₂ R l1 l2 → List.Forall₂ S l2 l3 → List.Forall₂ T l1 l3 := by
  intro l1 l2 l3 h1
  induction h1 generalizing l3 with
  | nil =>
    intro h2
    cases h2
    exact List.Forall₂.nil
  | cons ha hl ih =>
    intro h2
    cases h2 with
    | cons hb hl2 => exact List.Forall₂.cons (hT _ _ _ ha hb) (ih hl2)

/-- What one entry of a built `imports` list may be for the address
declared at its position: the empty placeholder, or the metadata object of
the monomer registered at that address. -/
def importEntryOk (html : String → Option Monomer) (h : String) (t : TreeVal) : Prop :=
  t = TreeVal.placeholder ∨ ∃ m, html h = some m ∧ t = TreeVal.node m.metaRef

/-- The `imports` list written on the heap object `r`, `[]` when absent. -/
def heapImports (hp : Heap) (r : Ref) : List TreeVal :=
  ((hp.get r).bind MetaObj.imports).getD []

/-- C5: after any successful `_metadataTree` call on a monomer, the
`imports` list written on its metadata object corresponds position by
position — same length, same order — to `depHrefs`, the document-order
list of its import-link targets recorded at parse time: entry `i` is
either the subtree node of the address declared at position `i` or the
placeholder for it.  Fetch completion order cannot intervene: the builder
runs only after `depsLoaded` has settled, and the model builds each
not-yet-visited child to completion before the next one starts, exactly as
the source serializes the recursive descents by chaining each on the
previous `depMetadata` entry (monomers.js 215-221). -/
theorem c5_imports_follow_declared_order (html : String → Option Monomer) (fuel : Nat)
    (m : Monomer) (st : BState) (r : Ref) (st' : BState)
    (h : buildTree html (fuel + 1) m st = .ok (r, st')) :
    List.Forall₂ (importEntryOk html) m.depHrefs (heapImports st'.heap m.metaRef) := by
  simp only [buildTree] at h
  split at h
  · cases h
  · rename_i ts st1 hbp
    split at h
    · cases h
    · rename_i obj hobj
      simp only [Except.ok.injEq, Prod.mk.injEq] at h
      rw [← h.2]
      show List.Forall₂ (importEntryOk html) m.depHrefs (heapImports (st1.heap.set m.metaRef _) m.metaRef)
      rw [show heapImports (st1.heap.set m.metaRef
            { obj with
              elements := obj.elements.map (attachDomModule m.parsed),
              imports := some ts, href := some m.href, html := some m.parsed }) m.metaRef = ts by
        simp [heapImports, Heap.get_set_self]]
      refine forall2_comp ?_ (markPlan_forall2 m.depHrefs st.visited)
        (buildPlan_forall2 (buildTree html fuel) html
          (fun mm ss rr ss' hh => buildTree_ref html fuel mm ss rr ss' hh) _ _ _ _ hbp)
      rintro a b c hab hbc
      rcases hab with rfl | rfl
      · rcases hbc with ⟨_, hc⟩ | ⟨h', m', hb, _, _⟩
        · exact Or.inl hc
        · cases hb
      · rcases hbc with ⟨hb, _⟩ | ⟨h', m', hb, hm, hc⟩
        · cases hb
        · injection hb with hb'
          subst hb'
          exact Or.inr ⟨m', hm, hc⟩

def parsedEmptyDoc : ParsedImport := ⟨[], [], []⟩

def parsedR1 : ParsedImport := ⟨[], [linkTo "B"], []⟩

def parsedR2 : ParsedImport := ⟨[], [linkTo "B", linkTo "B"], []⟩

def monomerB0 : Monomer := ⟨"B", parsedEmptyDoc, emptyRef, []⟩

def monomerR0 : Monomer := ⟨"R", parsedR1, 1, ["B"]⟩

def monomerR2 : Monomer := ⟨"R", parsedR2, 1, ["B", "B"]⟩

/-- A two-document table: the root `R` at metadata object 1, its import
target `B` at the empty-metadata object. -/
def html0 : String → Option Monomer := fun h => if h = "B" then some monomerB0 else none

def heap01 : Heap := ⟨[(emptyRef, ⟨[], [], none, none, none⟩), (1, ⟨[], [], none, none, none⟩)], 2⟩

def st0 : BState := ⟨heap01, []⟩

def objB : MetaObj := ⟨[], [], some [], some "B", some parsedEmptyDoc⟩

def objR1 : MetaObj := ⟨[], [], some [TreeVal.node 0], some "R", some parsedR1⟩

def objR2 : MetaObj := ⟨[], [], some [TreeVal.node 0, TreeVal.placeholder], some "R", some parsedR2⟩

def bstC5 : BState := ⟨⟨[(0, objB), (1, objR1)], 2⟩, ["B"]⟩

def bstC6 : BState := ⟨⟨[(0, objB), (1, objR2)], 2⟩, ["B"]⟩

/-- C5 witness: the concrete build of `R` importing `B` yields an
`imports` list lining up with the declared link order. -/
theorem c5_witness :
    List.Forall₂ (importEntryOk html0) monomerR0.depHrefs (heapImports bstC5.heap monomerR0.metaRef) :=
  c5_imports_follow_declared_order html0 1 monomerR0 st0 1 bstC5 rfl

/-- C6: when a document imports the same resolved address twice and that
address is not yet visited, a successful build expands the first
occurrence into the subtree node of that address's monomer and substitutes
the empty placeholder for the second occurrence: the synchronous marking
pass plans the build for position one and the placeholder for position
two. -/
theorem c6_duplicate_import_first_expanded_second_placeholder
    (html : String → Option Monomer) (fuel : Nat) (m : Monomer) (st : BState)
    (b : String) (mb : Monomer) (r : Ref) (st' : BState)
    (hdep : m.depHrefs = [b, b]) (hvis : b ∉ st.visited) (hmb : html b = some mb)
    (h : buildTree html (fuel + 1) m st = .ok (r, st')) :
    heapImports st'.heap m.metaRef = [TreeVal.node mb.metaRef, TreeVal.placeholder] := by
  have hmp : markPlan m.depHrefs st.visited = ([some b, none], b :: st.visited) := by
    rw [hdep]
    simp [markPlan, hvis]
  simp only [buildTree, hmp, buildPlan, hmb] at h
  cases hbt : buildTree html fuel mb ⟨st.heap, b :: st.visited⟩ with
  | error e =>
    rw [hbt] at h
    simp at h
  | ok p =>
    obtain ⟨r1, stA⟩ := p
    rw [hbt] at h
    have hr1 : r1 = mb.metaRef := buildTree_ref html fuel mb _ r1 stA hbt
    simp only at h
    split at h
    · cases h
    · rename_i obj hobj
      simp only [Except.ok.injEq, Prod.mk.injEq] at h
      rw [← h.2]
      simp [heapImports, Heap.get_set_self, hr1]

/-- C6 witness: the concrete build of `R` importing `B` twice yields
`imports` = subtree node of `B` then placeholder. -/
theorem c6_witness :
    heapImports bstC6.heap monomerR2.metaRef = [TreeVal.node monomerB0.metaRef, TreeVal.placeholder] :=
  c6_duplicate_import_first_expanded_second_placeholder html0 1 monomerR2 st0 "B"
    monomerB0 1 bstC6 rfl (List.not_mem_nil "B") rfl rfl

/-- C9: failures propagate unrecovered, and a failed call yields no
partial result — the `Except` value of each modelled operation is either a
complete result or the failure alone.  Four propagation steps cover the
claimed failure sources: a document parse failure aborts `_parseHTML` with
that failure (monomers.js 113-119); a script-extraction failure — script
parse failure or registration failure — aborts it likewise (121-124); a
loader failure rejects the dependency walk unchanged (132-141); and a
failure inside a subtree build aborts the enclosing `_metadataTree` call
with that same failure (215-228). -/
theorem c9_failures_propagate_unrecovered
    (env : Env) (fuel : Nat) (text href : String) (st : RState) (e : JsError)
    (hmemo : getA st.html href = none) (hparse : env.importParse text = .error e)
    (env2 : Env) (fuel2 : Nat) (text2 href2 : String) (st2 : RState)
    (parsed2 : ParsedImport) (e2 : JsError)
    (hmemo2 : getA st2.html href2 = none) (hip2 : env2.importParse text2 = .ok parsed2)
    (hps2 : processScriptsAux env2 href2 parsed2.script st2.scriptSt = .error e2)
    (step3 : String → String → RState → Except JsError RState)
    (request3 : String → Except JsError String) (r3 : String) (rs3 : List String)
    (st3 : RState) (e3 : JsError) (hreq3 : request3 r3 = .error e3)
    (html4 : String → Option Monomer) (fuel4 : Nat) (m4 : Monomer) (st4 : BState)
    (b4 : String) (plan4 : List (Option String)) (v4 : List String)
    (mb4 : Monomer) (e4 : JsError)
    (hmp4 : markPlan m4.depHrefs st4.visited = (some b4 :: plan4, v4))
    (hmb4 : html4 b4 = some mb4)
    (hsub4 : buildTree html4 fuel4 mb4 { st4 with visited := v4 } = .error e4) :
    parseHTML env (fuel + 1) text href st = .error e
    ∧ parseHTML env2 (fuel2 + 1) text2 href2 st2 = .error e2
    ∧ parseDeps step3 request3 (r3 :: rs3) st3 = .error e3
    ∧ buildTree html4 (fuel4 + 1) m4 st4 = .error e4 := by
  refine ⟨?_, ?_, ?_, ?_⟩
  · simp [parseHTML, hmemo, hparse]
  · simp [parseHTML, hmemo2, hip2, hps2]
  · simp [parseDeps, hreq3]
  · simp [buildTree, hmp4, buildPlan, hmb4, hsub4]

/-- Collaborators demonstrating the C9 scenarios: text `TS` parses to one
script whose body `sm` declares modules (whose registration fails). -/
def envE : Env :=
  { importParse := fun t =>
      if t = "TS" then .ok ⟨[scriptNode "sm"], [], []⟩ else .error (.parseError t),
    jsParse := fun t _ =>
      if t = "sm" then .ok ⟨[], [moduleM1, moduleM1]⟩ else .error (.parseError t),
    urlResolve := fun _ u => u,
    loader := none,
    attachAST := false }

/-- A monomer whose metadata object is absent from the initial heap, so
its build fails. -/
def monomerGhost : Monomer := ⟨"B", parsedEmptyDoc, 7, []⟩

def htmlGhost : String → Option Monomer := fun h =>
  if h = "B" then some monomerGhost else none

def monomerRGhost : Monomer := ⟨"R", parsedR1, 7, ["B"]⟩

/-- C9 witness: the four propagation steps at concrete inputs — a parse
failure, a module-registration failure, a loader failure and a failing
subtree build each surface unchanged. -/
theorem c9_witness :
    parseHTML env1 1 "bad" "H" initRState = .error (.parseError "bad")
    ∧ parseHTML envE 1 "TS" "H" initRState =
        .error (.typeError "this is undefined in the modules forEach callback")
    ∧ parseDeps (parseHTML env1 0) (fun h => .error (.loaderError h)) ["B"] initRState =
        .error (.loaderError "B")
    ∧ buildTree htmlGhost 2 monomerRGhost ⟨initHeap, []⟩ =
        .error (.typeError "resolved metadata object is missing") :=
  c9_failures_propagate_unrecovered
    env1 0 "bad" "H" initRState (.parseError "bad") rfl rfl
    envE 0 "TS" "H" initRState ⟨[scriptNode "sm"], [], []⟩
    (.typeError "this is undefined in the modules forEach callback") rfl rfl rfl
    (parseHTML env1 0) (fun h => .error (.loaderError h)) "B" [] initRState
    (.loaderError "B") rfl
    htmlGhost 1 monomerRGhost ⟨initHeap, []⟩ "B" [] ["B"] monomerGhost
    (.typeError "resolved metadata object is missing") rfl rfl rfl

/-- Collaborators for the shared-empty-metadata scenario: text `TA` at
`A` holds one script (defining element `x-a`) and imports `B` then `C`;
texts `TB` and `TC` are script-less and import nothing. -/
def envC10 : Env :=
  { importParse := fun t =>
      if t = "TA" then .ok ⟨[scriptNode "sa"], [linkTo "B", linkTo "C"], []⟩
      else if t = "TB" then .ok ⟨[], [], []⟩
      else if t = "TC" then .ok ⟨[], [], []⟩
      else .error (.parseError t),
    jsParse := fun t _ =>
      if t = "sa" then .ok ⟨[elemA], []⟩ else .error (.parseError t),
    urlResolve := fun _ u => u,
    loader := some (fun h =>
      if h = "B" then .ok "TB"
      else if h = "C" then .ok "TC"
      else .error (.loaderError h)),
    attachAST := false }

/-- The metadata-object reference `metadataLoaded` of `h` resolved with. -/
def metaRefAt (r : Except JsError RState) (h : String) : Option Ref :=
  match r with
  | .error _ => none
  | .ok st => (getA st.html h).map Monomer.metaRef

/-- The `href` field of the heap object `ref` after a full engine run. -/
def heapHrefAt (r : Except JsError (Ref × BState)) (ref : Ref) : Option (Option String) :=
  match r with
  | .error _ => none
  | .ok p => (p.2.heap.get ref).map MetaObj.href

/-- The `imports` field written on the root's metadata object. -/
def rootImportsAt (r : Except JsError (Ref × BState)) : Option (Option (List TreeVal)) :=
  match r with
  | .error _ => none
  | .ok p => (p.2.heap.get p.1).map MetaObj.imports

/-- C10: in the concrete engine run on `envC10`, the script-less documents
`B` and `C` both resolve `metadataLoaded` with the one shared
`EMPTY_METADATA` object (`emptyRef`); the tree builder mutates that
resolved object in place, so the root's `imports` list holds the same
object twice, and the `href` written for `C` — built after `B` —
overwrites the `href` written for `B` on that shared object. -/
theorem c10_scriptless_documents_share_empty_metadata :
    metaRefAt (parseHTML envC10 9 "TA" "A" initRState) "B" = some emptyRef
    ∧ metaRefAt (parseHTML envC10 9 "TA" "A" initRState) "C" = some emptyRef
    ∧ rootImportsAt (runEngine envC10 9 "TA" "A") =
        some (some [TreeVal.node emptyRef, TreeVal.node emptyRef])
    ∧ heapHrefAt (runEngine envC10 9 "TA" "A") emptyRef = some (some "C") :=
  ⟨rfl, rfl, rfl, rfl⟩

end Monomers
